import Mathlib

/-!
Verification of the `lexia.observability` subsystem (metrics, event bus,
health monitor, profiler) against its natural-language specification.

The Python source is shallowly embedded: every class becomes a structure,
every method a pure function (mutation becomes explicit state passing),
Python floats become exact rationals (`ℚ`), Python dicts become
insertion-ordered association lists, and code that can raise returns
`Except String`.
-/

set_option linter.unusedVariables false

namespace Lexia

/-- Python `dict` lookup (`d[k]` / `k in d`): first entry whose key matches. -/
def dictGet {α : Type} : List (String × α) → String → Option α
  | [], _ => none
  | kv :: rest, key => if kv.1 = key then some kv.2 else dictGet rest key

/-- Python `dict` assignment `d[k] = v`: overwrite in place if the key is
present, otherwise append (Python dicts preserve insertion order). -/
def dictSet {α : Type} : List (String × α) → String → α → List (String × α)
  | [], key, v => [(key, v)]
  | kv :: rest, key, v => if kv.1 = key then (key, v) :: rest else kv :: dictSet rest key v

namespace Metrics

/-- Embeds `Counter` of `lexia/observability/metrics.py`: name, description
and an accumulated value (`_value`, initialised to 0). -/
structure Counter where
  name : String
  description : String
  value : ℚ
deriving DecidableEq

/-- Embeds `Counter.__init__`. -/
def Counter.init (name description : String) : Counter :=
  { name := name, description := description, value := 0 }

/-- Embeds `Counter.inc`: `self._value += amount`. -/
def Counter.inc (c : Counter) (amount : ℚ) : Counter :=
  { c with value := c.value + amount }

/-- Embeds `Counter.reset`: `self._value = 0`. -/
def Counter.reset (c : Counter) : Counter :=
  { c with value := 0 }

/-- Embeds `Gauge`: name, description, current value.  The source class
defines `set`, `inc`, `dec` and the `value` property, and — unlike
`Counter` and `Histogram` — defines no `reset` method. -/
structure Gauge where
  name : String
  description : String
  value : ℚ
deriving DecidableEq

/-- Embeds `Gauge.__init__`. -/
def Gauge.init (name description : String) : Gauge :=
  { name := name, description := description, value := 0 }

/-- Embeds `Gauge.set`. -/
def Gauge.set (g : Gauge) (v : ℚ) : Gauge :=
  { g with value := v }

/-- Embeds `Gauge.inc`. -/
def Gauge.inc (g : Gauge) (amount : ℚ) : Gauge :=
  { g with value := g.value + amount }

/-- Embeds `Gauge.dec`. -/
def Gauge.dec (g : Gauge) (amount : ℚ) : Gauge :=
  { g with value := g.value - amount }

/-- Embeds `Histogram`: name, description and the ordered list of
observations (`_observations`). -/
structure Histogram where
  name : String
  description : String
  observations : List ℚ
deriving DecidableEq

/-- Embeds `Histogram.__init__`. -/
def Histogram.init (name description : String) : Histogram :=
  { name := name, description := description, observations := [] }

/-- Embeds `Histogram.observe`: `self._observations.append(value)`. -/
def Histogram.observe (h : Histogram) (v : ℚ) : Histogram :=
  { h with observations := h.observations ++ [v] }

/-- Embeds `Histogram.reset`: `self._observations.clear()`. -/
def Histogram.reset (h : Histogram) : Histogram :=
  { h with observations := [] }

/-- The record returned by `Histogram.stats`. -/
structure HistStats where
  count : Nat
  sum : ℚ
  min : ℚ
  max : ℚ
  avg : ℚ
deriving DecidableEq

/-- Python `sum(xs)`: left fold of addition starting from 0. -/
def listSum : List ℚ → ℚ :=
  fun xs => xs.foldl (fun a b => a + b) 0

/-- Python `min(x, *xs)` over a nonempty list. -/
def listMin (x : ℚ) (xs : List ℚ) : ℚ :=
  xs.foldl (fun a b => if b < a then b else a) x

/-- Python `max(x, *xs)` over a nonempty list. -/
def listMax (x : ℚ) (xs : List ℚ) : ℚ :=
  xs.foldl (fun a b => if a < b then b else a) x

/-- Embeds the `Histogram.stats` property: all-zero record when there are
no observations, otherwise count, sum, min, max and sum/count. -/
def Histogram.stats (h : Histogram) : HistStats :=
  match h.observations with
  | [] => { count := 0, sum := 0, min := 0, max := 0, avg := 0 }
  | x :: xs =>
    { count := (x :: xs).length
      sum := listSum (x :: xs)
      min := listMin x xs
      max := listMax x xs
      avg := listSum (x :: xs) / ((x :: xs).length : ℚ) }

/-- Embeds `Timer`: start time (`_start_time`), last duration
(`_duration`), and the wrapped histogram named `"<name>_seconds"`.
Wall-clock instants are passed in explicitly as rationals. -/
structure Timer where
  name : String
  description : String
  start_time : Option ℚ
  duration : Option ℚ
  histogram : Histogram
deriving DecidableEq

/-- Embeds `Timer.__init__`. -/
def Timer.init (name description : String) : Timer :=
  { name := name, description := description, start_time := none,
    duration := none, histogram := Histogram.init (name ++ "_seconds") description }

/-- Embeds `Timer.__enter__` at wall-clock instant `now`:
`self._start_time = time.time()`. -/
def Timer.enter (t : Timer) (now : ℚ) : Timer :=
  { t with start_time := some now }

/-- Embeds `Timer.__exit__` at wall-clock instant `now`: if a start time is
recorded, store the elapsed time as the last duration, observe it on the
histogram and clear the start time; otherwise do nothing. -/
def Timer.exit (t : Timer) (now : ℚ) : Timer :=
  match t.start_time with
  | none => t
  | some s =>
    { t with duration := some (now - s),
             histogram := t.histogram.observe (now - s),
             start_time := none }

/-- A metric stored in the collector's `_metrics` dict (typed `Any` in the
source; any of the four classes may be stored under a name). -/
inductive Metric where
  | counter : Counter → Metric
  | gauge : Gauge → Metric
  | histogram : Histogram → Metric
  | timer : Timer → Metric
deriving DecidableEq

/-- Python `hasattr(metric, \x27reset\x27)`: `Counter` and `Histogram`
define a `reset` method; `Gauge` and `Timer` do not. -/
def Metric.hasResetAttr : Metric → Bool
  | .counter _ => true
  | .gauge _ => false
  | .histogram _ => true
  | .timer _ => false

/-- Calls `metric.reset()` on the classes that define it; identity on the
others (on which `reset_all` never calls it, thanks to the `hasattr`
guard). -/
def Metric.callReset : Metric → Metric
  | .counter c => .counter c.reset
  | .histogram h => .histogram h.reset
  | m => m

/-- Embeds `MetricsCollector`: the `_metrics` dict. -/
structure MetricsCollector where
  metrics : List (String × Metric)
deriving DecidableEq

/-- Embeds `MetricsCollector.__init__`. -/
def MetricsCollector.init : MetricsCollector :=
  { metrics := [] }

/-- Embeds `MetricsCollector.counter`: get-or-create; returns whatever is
stored under the name (the source returns `self._metrics[name]`, which may
be any kind if the name was first created by another accessor). -/
def MetricsCollector.counter (mc : MetricsCollector) (name description : String) :
    MetricsCollector × Metric :=
  match dictGet mc.metrics name with
  | some m => (mc, m)
  | none =>
    let m := Metric.counter (Counter.init name description)
    ({ metrics := dictSet mc.metrics name m }, m)

/-- Embeds `MetricsCollector.gauge` (same get-or-create shape). -/
def MetricsCollector.gauge (mc : MetricsCollector) (name description : String) :
    MetricsCollector × Metric :=
  match dictGet mc.metrics name with
  | some m => (mc, m)
  | none =>
    let m := Metric.gauge (Gauge.init name description)
    ({ metrics := dictSet mc.metrics name m }, m)

/-- Embeds `MetricsCollector.histogram`. -/
def MetricsCollector.histogram (mc : MetricsCollector) (name description : String) :
    MetricsCollector × Metric :=
  match dictGet mc.metrics name with
  | some m => (mc, m)
  | none =>
    let m := Metric.histogram (Histogram.init name description)
    ({ metrics := dictSet mc.metrics name m }, m)

/-- Embeds `MetricsCollector.timer`. -/
def MetricsCollector.timer (mc : MetricsCollector) (name description : String) :
    MetricsCollector × Metric :=
  match dictGet mc.metrics name with
  | some m => (mc, m)
  | none =>
    let m := Metric.timer (Timer.init name description)
    ({ metrics := dictSet mc.metrics name m }, m)

/-- One iteration of the `reset_all` loop on a stored metric:
`if hasattr(metric, \x27reset\x27): metric.reset()`. -/
def Metric.resetStep (m : Metric) : Metric :=
  if m.hasResetAttr then m.callReset else m

/-- Embeds `MetricsCollector.reset_all`: apply the guarded reset to every
stored metric. -/
def MetricsCollector.reset_all (mc : MetricsCollector) : MetricsCollector :=
  { metrics := mc.metrics.map (fun kv => (kv.1, kv.2.resetStep)) }

/-- Models calling a mutating method on a metric object previously obtained
from the collector: in Python the collector's dict holds a reference to the
same object, so the mutation is visible through the collector. -/
def MetricsCollector.updateMetric (mc : MetricsCollector) (name : String)
    (f : Metric → Metric) : MetricsCollector :=
  { metrics := mc.metrics.map (fun kv => if kv.1 = name then (kv.1, f kv.2) else kv) }

/-- Which of the four kind accessors of `MetricsCollector` is called. -/
inductive MetricKind where
  | counter
  | gauge
  | histogram
  | timer

/-- Dispatch to the kind accessor selected by `k`. -/
def MetricsCollector.access (mc : MetricsCollector) (k : MetricKind)
    (name description : String) : MetricsCollector × Metric :=
  match k with
  | .counter => mc.counter name description
  | .gauge => mc.gauge name description
  | .histogram => mc.histogram name description
  | .timer => mc.timer name description

/-- The empty/zero state the spec ascribes to each metric after
`reset_all`: counters and gauges read 0, histograms (and timer histograms)
have no observations. -/
def Metric.isZeroed : Metric → Bool
  | .counter c => c.value == 0
  | .gauge g => g.value == 0
  | .histogram h => h.observations == []
  | .timer t => t.histogram.observations == []

/-- Every metric of the collector is in its empty/zero state. -/
def MetricsCollector.allZeroed (mc : MetricsCollector) : Bool :=
  mc.metrics.all (fun kv => kv.2.isZeroed)

/-- A concrete collector holding one metric of each kind, each carrying
data, built purely through the public operations: a counter incremented by
2, a gauge set to 5, a histogram with one observation, and a timer that
completed one timed region of length 1. -/
def mcExample : MetricsCollector :=
  let s0 := MetricsCollector.init
  let s1 := (s0.counter "c" "").1
  let s2 := s1.updateMetric "c" (fun m => match m with
    | .counter c => .counter (c.inc 2)
    | m => m)
  let s3 := (s2.gauge "g" "").1
  let s4 := s3.updateMetric "g" (fun m => match m with
    | .gauge g => .gauge (g.set 5)
    | m => m)
  let s5 := (s4.histogram "h" "").1
  let s6 := s5.updateMetric "h" (fun m => match m with
    | .histogram h => .histogram (h.observe 1)
    | m => m)
  let s7 := (s6.timer "t" "").1
  s7.updateMetric "t" (fun m => match m with
    | .timer t => .timer ((t.enter 0).exit 1)
    | m => m)

/-- The histogram of the concrete worked example of the spec: a fresh
histogram observing 0.1, 0.3, 0.2 (as exact rationals). -/
def histExample : Histogram :=
  (((Histogram.init "d" "").observe (1/10)).observe (3/10)).observe (2/10)

end Metrics

namespace Events

/-- The `Any`-valued dicts carried by events (`data`, `metadata`); their
contents are opaque to the bus, modelled as string-to-string maps. -/
def AnyDict : Type := List (String × String)

instance : DecidableEq AnyDict := by
  unfold AnyDict
  infer_instance

/-- Embeds the `Event` dataclass of `lexia/observability/events.py`:
name, data, timestamp (a wall-clock rational), metadata. -/
structure Event where
  name : String
  data : AnyDict
  timestamp : ℚ
  metadata : AnyDict
deriving DecidableEq

/-- The behaviour of a listener callback: `cid` identifies the callback so
dispatch order can be observed; `run` gives, for each event, `none` when
the callback returns normally and `some msg` when it raises `msg`. -/
structure Callback where
  cid : Nat
  run : Event → Option String

/-- Embeds `EventListener`: callback, integer priority (higher dispatched
first), optional filter predicate. -/
structure EventListener where
  callback : Callback
  priority : Int
  event_filter : Option (Event → Bool)

/-- Embeds `EventListener.should_handle`: true when there is no filter,
else the filter's verdict. -/
def EventListener.should_handle (l : EventListener) (e : Event) : Bool :=
  match l.event_filter with
  | none => true
  | some f => f e

/-- Executing `self.callback(event)` raw: may raise. -/
def EventListener.invokeCallback (l : EventListener) (e : Event) : Except String Unit :=
  match l.callback.run e with
  | none => .ok ()
  | some msg => .error msg

/-- Embeds `EventListener.handle`: the callback runs inside
`try/except Exception`, so a raised exception is logged and swallowed. -/
def EventListener.handle (l : EventListener) (e : Event) : Except String Unit :=
  match l.invokeCallback e with
  | .ok _ => .ok ()
  | .error _ => .ok ()

/-- Embeds the dispatch loop of `EventBus.publish`: iterate the snapshot in
order, check `should_handle`, call `handle`; an exception from `handle`
would abort the loop and propagate.  Returns the callback ids invoked, in
invocation order. -/
def notifyListeners : List EventListener → Event → Except String (List Nat)
  | [], _ => .ok []
  | l :: rest, e =>
    if l.should_handle e then
      match l.handle e with
      | .error msg => .error msg
      | .ok _ =>
        match notifyListeners rest e with
        | .error msg => .error msg
        | .ok trace => .ok (l.callback.cid :: trace)
    else notifyListeners rest e

/-- Embeds `EventBus`: per-name listener lists, the shared bounded event
history, and the capacity `_max_history` (100). -/
structure EventBus where
  listeners : List (String × List EventListener)
  event_history : List Event
  max_history : Nat

/-- Embeds `EventBus.__init__`. -/
def EventBus.init : EventBus :=
  { listeners := [], event_history := [], max_history := 100 }

/-- Stable descending insertion: place `x` before the first element whose
priority is not strictly greater than its own. -/
def insertListener (x : EventListener) : List EventListener → List EventListener
  | [] => [x]
  | y :: ys => if x.priority < y.priority then y :: insertListener x ys else x :: y :: ys

/-- Embeds `list.sort(key=lambda l: l.priority, reverse=True)`.  Python's
sort is guaranteed stable, and reverse=True is a stable descending sort;
the output of a stable sort is uniquely determined by the input, so this
stable insertion sort computes exactly the same list. -/
def sortListeners : List EventListener → List EventListener
  | [] => []
  | x :: xs => insertListener x (sortListeners xs)

/-- The arguments of one `subscribe` call. -/
structure SubReq where
  event_name : String
  callback : Callback
  priority : Int
  event_filter : Option (Event → Bool)

/-- The `EventListener` that `subscribe` constructs from its arguments. -/
def mkListener (r : SubReq) : EventListener :=
  { callback := r.callback, priority := r.priority, event_filter := r.event_filter }

/-- Embeds `EventBus.subscribe`: construct the listener, append it to the
event's list (created empty if absent) and re-sort that list by priority
descending (stable). -/
def EventBus.subscribe (b : EventBus) (r : SubReq) : EventBus × EventListener :=
  let listener := mkListener r
  let cur := (dictGet b.listeners r.event_name).getD []
  let sorted := sortListeners (cur ++ [listener])
  ({ b with listeners := dictSet b.listeners r.event_name sorted }, listener)

/-- A sequence of `subscribe` calls, ignoring the returned handles. -/
def subscribeAll (b : EventBus) (rs : List SubReq) : EventBus :=
  rs.foldl (fun b r => (b.subscribe r).1) b

/-- The arguments of one `publish` call (`now` is the wall-clock instant
`datetime.now()` reads). -/
structure PubReq where
  name : String
  data : Option AnyDict
  metadata : Option AnyDict
  now : ℚ
deriving DecidableEq

/-- The `Event` that `publish` constructs: `data or {}`, `metadata or {}`,
current timestamp. -/
def mkEvent (r : PubReq) : Event :=
  { name := r.name, data := r.data.getD [], timestamp := r.now,
    metadata := r.metadata.getD [] }

/-- The state change `publish` makes to the bus: append the event to the
history and, if the history now exceeds `_max_history`, `pop(0)` the
oldest entry.  (Dispatch does not change bus state.) -/
def EventBus.publishState (b : EventBus) (r : PubReq) : EventBus :=
  let hist := b.event_history ++ [mkEvent r]
  let hist := if hist.length > b.max_history then hist.drop 1 else hist
  { b with event_history := hist }

/-- Embeds `EventBus.publish`: build the event, store it in the bounded
history, snapshot (`.copy()`) the listeners registered for the name, and
dispatch to the snapshot.  Returns the new bus state, the constructed
event, and the invocation trace; an uncaught callback exception would
surface as `.error`. -/
def EventBus.publish (b : EventBus) (r : PubReq) :
    Except String (EventBus × Event × List Nat) :=
  let event := mkEvent r
  let snapshot := (dictGet b.listeners r.name).getD []
  match notifyListeners snapshot event with
  | .error msg => .error msg
  | .ok trace => .ok (b.publishState r, event, trace)

/-- The invocation trace of one `publish` call. -/
def EventBus.publishTrace (b : EventBus) (r : PubReq) : List Nat :=
  match b.publish r with
  | .ok (_, _, trace) => trace
  | .error _ => []

/-- A sequence of `publish` calls (state evolution only). -/
def publishAll (b : EventBus) (rs : List PubReq) : EventBus :=
  rs.foldl EventBus.publishState b

/-- Embeds `EventBus.get_history`: the Python slice
`self._event_history[-limit:]`, which is the last `limit` events for
`limit > 0` and — because `-0 == 0` — the whole history for `limit = 0`. -/
def EventBus.get_history (b : EventBus) (limit : Nat) : List Event :=
  if limit = 0 then b.event_history
  else b.event_history.drop (b.event_history.length - limit)

/-- The last `n` elements of a list. -/
def lastN {α : Type} (n : Nat) (xs : List α) : List α :=
  xs.drop (xs.length - n)

/-- Listeners sorted by priority descending. -/
def SortedDesc (ls : List EventListener) : Prop :=
  List.Pairwise (fun a b => b.priority ≤ a.priority) ls

/-- The worked example of the spec: subscribe `A` (callback id 1,
priority 1) then `B` (callback id 2, priority 5) to event `"x"`. -/
def busAB : EventBus :=
  subscribeAll EventBus.init
    [ { event_name := "x", callback := { cid := 1, run := fun _ => none },
        priority := 1, event_filter := none },
      { event_name := "x", callback := { cid := 2, run := fun _ => none },
        priority := 5, event_filter := none } ]

/-- The worked example's publish call: name "x", empty data and
metadata. -/
def pubX : PubReq :=
  { name := "x", data := none, metadata := none, now := 0 }

/-- 105 publish requests with distinct timestamps. -/
def reqsEx : List PubReq :=
  (List.range 105).map
    (fun i => { name := "e", data := none, metadata := none, now := (i : ℚ) })

/-- A bus on which exactly one event has been published. -/
def busOne : EventBus :=
  EventBus.init.publishState { name := "a", data := none, metadata := none, now := 0 }

/-- A bus with a high-priority listener (callback id 7) whose callback
raises, and a lower-priority listener (callback id 8) that returns
normally, both subscribed to `"x"`. -/
def busRaise : EventBus :=
  subscribeAll EventBus.init
    [ { event_name := "x", callback := { cid := 7, run := fun _ => some "boom" },
        priority := 5, event_filter := none },
      { event_name := "x", callback := { cid := 8, run := fun _ => none },
        priority := 1, event_filter := none } ]

end Events

namespace Monitor

/-- The opaque `details` dict of a health status. -/
def Details : Type := List (String × String)

instance : DecidableEq Details := by
  unfold Details
  infer_instance

/-- Embeds the `HealthStatus` dataclass of
`lexia/observability/monitor.py`. -/
structure HealthStatus where
  healthy : Bool
  message : String
  details : Details
  timestamp : ℚ
deriving DecidableEq

/-- Embeds `HealthCheck`: name, the check function (which may raise,
modelled by `Except`), and the critical flag. -/
structure HealthCheck where
  name : String
  check_func : Unit → Except String (Bool × String × Details)
  critical : Bool

/-- Embeds `HealthCheck.check` at wall-clock instant `now`: run
`check_func` inside `try/except`; on success wrap the triple in a
`HealthStatus`; on an exception `e`, synthesize a failed status with
message `"Check failed: " ++ e` and details `{error: e}`. -/
def HealthCheck.check (hc : HealthCheck) (now : ℚ) : HealthStatus :=
  match hc.check_func () with
  | .ok (healthy, message, details) =>
    { healthy := healthy, message := message, details := details, timestamp := now }
  | .error e =>
    { healthy := false, message := "Check failed: " ++ e,
      details := [("error", e)], timestamp := now }

/-- One entry of the `checks` dict returned by `check_health`. -/
structure CheckEntry where
  healthy : Bool
  message : String
  details : Details
  critical : Bool
  timestamp : ℚ
deriving DecidableEq

/-- The dict returned by `SystemMonitor.check_health`. -/
structure HealthReport where
  healthy : Bool
  critical_failure : Bool
  checks : List (String × CheckEntry)
  timestamp : ℚ

/-- Embeds `SystemMonitor`: the `_health_checks` list. -/
structure SystemMonitor where
  health_checks : List HealthCheck

/-- Embeds `SystemMonitor.add_health_check`: append a new check. -/
def SystemMonitor.add_health_check (m : SystemMonitor) (name : String)
    (check_func : Unit → Except String (Bool × String × Details)) (critical : Bool) :
    SystemMonitor :=
  { health_checks := m.health_checks ++ [{ name := name, check_func := check_func,
                                           critical := critical }] }

/-- The loop body of `check_health`: run one check, store its entry in the
results dict, and update the `all_healthy` / `critical_failure` flags
(`if not status.healthy: all_healthy = False; if check.critical:
critical_failure = True`). -/
def checkStep (now : ℚ) (acc : List (String × CheckEntry) × Bool × Bool)
    (check : HealthCheck) : List (String × CheckEntry) × Bool × Bool :=
  let status := check.check now
  let results := dictSet acc.1 check.name
    { healthy := status.healthy, message := status.message, details := status.details,
      critical := check.critical, timestamp := status.timestamp }
  (results, acc.2.1 && status.healthy, acc.2.2 || (!status.healthy && check.critical))

/-- Embeds `SystemMonitor.check_health`: run every registered check
sequentially, collecting the results dict and the aggregate flags. -/
def SystemMonitor.check_health (m : SystemMonitor) (now : ℚ) : HealthReport :=
  let r := m.health_checks.foldl (checkStep now) ([], true, false)
  { healthy := r.2.1, critical_failure := r.2.2, checks := r.1, timestamp := now }

/-- A health check whose function raises `"boom"`. -/
def hcFail : HealthCheck :=
  { name := "db", check_func := fun _ => .error "boom", critical := true }

end Monitor

namespace Profiling

/-- Models the Python standard-library `cProfile.Profile` object used by
`lexia/observability/profiler.py`: `enable()` resumes collection,
`disable()` pauses it, and the accumulated statistics persist across
enable/disable cycles — the library never clears them on `enable()`.
Statistics are abstracted to a call count and a total time; profiled work
is modelled by `record`, which accumulates only while collection is
enabled. -/
structure CProfile where
  total_calls : Nat
  total_time : ℚ
  enabled : Bool
deriving DecidableEq

/-- A fresh `cProfile.Profile()`. -/
def CProfile.init : CProfile :=
  { total_calls := 0, total_time := 0, enabled := false }

/-- Models `Profile.enable()`. -/
def CProfile.enable (p : CProfile) : CProfile :=
  { p with enabled := true }

/-- Models `Profile.disable()`. -/
def CProfile.disable (p : CProfile) : CProfile :=
  { p with enabled := false }

/-- Executing profiled work (`calls` calls taking `t` seconds): recorded
only while collection is enabled. -/
def CProfile.record (p : CProfile) (calls : Nat) (t : ℚ) : CProfile :=
  if p.enabled then
    { p with total_calls := p.total_calls + calls, total_time := p.total_time + t }
  else p

/-- Embeds `Profiler` of `lexia/observability/profiler.py`: the single
`cProfile.Profile` created in `__init__` plus the `_profiling` flag. -/
structure Profiler where
  profiler : CProfile
  profiling : Bool
deriving DecidableEq

/-- Embeds `Profiler.__init__`. -/
def Profiler.init : Profiler :=
  { profiler := CProfile.init, profiling := false }

/-- Embeds `Profiler.start`: enable the profile only if not already
profiling; nothing else — in particular no statistics are cleared. -/
def Profiler.start (p : Profiler) : Profiler :=
  if !p.profiling then { profiler := p.profiler.enable, profiling := true } else p

/-- Embeds `Profiler.stop`. -/
def Profiler.stop (p : Profiler) : Profiler :=
  if p.profiling then { profiler := p.profiler.disable, profiling := false } else p

/-- Application code running `calls` calls in `t` seconds under the
profiler. -/
def Profiler.run (p : Profiler) (calls : Nat) (t : ℚ) : Profiler :=
  { p with profiler := p.profiler.record calls t }

/-- Embeds `Profiler.get_stats`: report the profile's accumulated totals
(`total_calls`, `total_tt`; `primitive_calls` accumulates identically and
is omitted). -/
def Profiler.get_stats (p : Profiler) : Nat × ℚ :=
  (p.profiler.total_calls, p.profiler.total_time)

/-- Two back-to-back profiling sessions: the first records 1 call taking
1 second, then `stop()`, `start()`, and the second session records 2 calls
taking 5 seconds. -/
def profExample : Profiler :=
  ((((Profiler.init.start).run 1 1).stop).start).run 2 5

end Profiling

/-! ## Shared helper lemmas -/

theorem dictGet_dictSet_self {α : Type} (d : List (String × α)) (k : String) (v : α) :
    dictGet (dictSet d k v) k = some v := by
  induction d with
  | nil => simp [dictSet, dictGet]
  | cons kv rest ih =>
    by_cases h : kv.1 = k
    · simp [dictSet, dictGet, h]
    · simp [dictSet, dictGet, h, ih]

theorem dictGet_dictSet_ne {α : Type} (d : List (String × α)) {k k2 : String} (v : α)
    (hne : k2 ≠ k) : dictGet (dictSet d k v) k2 = dictGet d k2 := by
  induction d with
  | nil => simp [dictSet, dictGet, Ne.symm hne]
  | cons kv rest ih =>
    by_cases h : kv.1 = k
    · subst h
      simp [dictSet, dictGet, Ne.symm hne]
    · simp only [dictSet, h, if_false]
      by_cases h2 : kv.1 = k2
      · simp [dictGet, h2]
      · simp [dictGet, h2, ih]

namespace Metrics

theorem dictGet_map_resetStep (l : List (String × Metric)) (n : String) :
    dictGet (l.map (fun kv => (kv.1, kv.2.resetStep))) n
      = (dictGet l n).map Metric.resetStep := by
  induction l with
  | nil => simp [dictGet]
  | cons kv rest ih =>
    by_cases h : kv.1 = n
    · simp [dictGet, h]
    · simp [dictGet, h, ih]

theorem access_found {mc : MetricsCollector} {n : String} {m : Metric}
    (k : MetricKind) (d : String) (h : dictGet mc.metrics n = some m) :
    mc.access k n d = (mc, m) := by
  cases k <;>
    simp [MetricsCollector.access, MetricsCollector.counter, MetricsCollector.gauge,
          MetricsCollector.histogram, MetricsCollector.timer, h]

theorem access_lookup (mc : MetricsCollector) (k : MetricKind) (n d : String) :
    dictGet (mc.access k n d).1.metrics n = some (mc.access k n d).2 := by
  cases hm : dictGet mc.metrics n with
  | some m =>
    rw [access_found k d hm]
    exact hm
  | none =>
    cases k <;>
      simp [MetricsCollector.access, MetricsCollector.counter, MetricsCollector.gauge,
            MetricsCollector.histogram, MetricsCollector.timer, hm, dictGet_dictSet_self]

theorem listSum_foldl (xs : List ℚ) (a : ℚ) :
    xs.foldl (fun u v => u + v) a = a + xs.sum := by
  induction xs generalizing a with
  | nil => simp
  | cons x rest ih =>
    simp only [List.foldl, ih, List.sum_cons]
    ring

theorem listSum_eq (xs : List ℚ) : listSum xs = xs.sum := by
  simp [listSum, listSum_foldl]

theorem listMin_cons (x y : ℚ) (ys : List ℚ) :
    listMin x (y :: ys) = listMin (if y < x then y else x) ys := rfl

theorem listMax_cons (x y : ℚ) (ys : List ℚ) :
    listMax x (y :: ys) = listMax (if x < y then y else x) ys := rfl

theorem listMin_mem (x : ℚ) (xs : List ℚ) : listMin x xs ∈ x :: xs := by
  induction xs generalizing x with
  | nil => simp [listMin]
  | cons y ys ih =>
    rw [listMin_cons]
    rcases List.mem_cons.mp (ih (if y < x then y else x)) with h1 | h1
    · rw [h1]
      by_cases hyx : y < x <;> simp [hyx]
    · simp [List.mem_cons, h1]

theorem listMax_mem (x : ℚ) (xs : List ℚ) : listMax x xs ∈ x :: xs := by
  induction xs generalizing x with
  | nil => simp [listMax]
  | cons y ys ih =>
    rw [listMax_cons]
    rcases List.mem_cons.mp (ih (if x < y then y else x)) with h1 | h1
    · rw [h1]
      by_cases hxy : x < y <;> simp [hxy]
    · simp [List.mem_cons, h1]

theorem listMin_le (x : ℚ) (xs : List ℚ) :
    listMin x xs ≤ x ∧ ∀ v ∈ xs, listMin x xs ≤ v := by
  induction xs generalizing x with
  | nil => simp [listMin]
  | cons y ys ih =>
    obtain ⟨ha, hb⟩ := ih (if y < x then y else x)
    rw [listMin_cons]
    refine ⟨le_trans ha ?_, ?_⟩
    · by_cases hyx : y < x <;> simp [hyx, le_of_lt]
    · intro v hv
      rcases List.mem_cons.mp hv with h1 | h1
      · subst h1
        refine le_trans ha ?_
        by_cases hvx : v < x <;> simp [hvx, le_of_not_lt]
      · exact hb v h1

theorem le_listMax (x : ℚ) (xs : List ℚ) :
    x ≤ listMax x xs ∧ ∀ v ∈ xs, v ≤ listMax x xs := by
  induction xs generalizing x with
  | nil => simp [listMax]
  | cons y ys ih =>
    obtain ⟨ha, hb⟩ := ih (if x < y then y else x)
    rw [listMax_cons]
    refine ⟨le_trans ?_ ha, ?_⟩
    · by_cases hxy : x < y <;> simp [hxy, le_of_lt]
    · intro v hv
      rcases List.mem_cons.mp hv with h1 | h1
      · subst h1
        refine le_trans ?_ ha
        by_cases hxv : x < v <;> simp [hxv, le_of_not_lt]
      · exact hb v h1

theorem exit_of_no_start {t : Timer} (now : ℚ) (h : t.start_time = none) :
    t.exit now = t := by
  simp [Timer.exit, h]

theorem foldl_exit_of_no_start (ts : List ℚ) (t : Timer) (h : t.start_time = none) :
    ts.foldl Timer.exit t = t := by
  induction ts with
  | nil => rfl
  | cons x rest ih =>
    simp only [List.foldl]
    rw [exit_of_no_start x h]
    exact ih

end Metrics

namespace Events

theorem handle_ok (l : EventListener) (e : Event) : l.handle e = .ok () := by
  unfold EventListener.handle
  cases l.invokeCallback e <;> rfl

theorem notifyListeners_eq (ls : List EventListener) (e : Event) :
    notifyListeners ls e
      = .ok ((ls.filter (fun l => l.should_handle e)).map (fun l => l.callback.cid)) := by
  induction ls with
  | nil => rfl
  | cons l rest ih =>
    by_cases h : l.should_handle e
    · simp [notifyListeners, h, handle_ok, ih, List.filter_cons]
    · simp [notifyListeners, h, ih, List.filter_cons]

theorem publish_eq (b : EventBus) (r : PubReq) :
    b.publish r
      = .ok (b.publishState r, mkEvent r,
          (((dictGet b.listeners r.name).getD []).filter
            (fun l => l.should_handle (mkEvent r))).map (fun l => l.callback.cid)) := by
  unfold EventBus.publish
  simp [notifyListeners_eq]

theorem publishTrace_eq (b : EventBus) (r : PubReq) :
    b.publishTrace r
      = (((dictGet b.listeners r.name).getD []).filter
          (fun l => l.should_handle (mkEvent r))).map (fun l => l.callback.cid) := by
  unfold EventBus.publishTrace
  rw [publish_eq]

theorem mem_insertListener {x y : EventListener} {ys : List EventListener}
    (hy : y ∈ insertListener x ys) : y = x ∨ y ∈ ys := by
  induction ys with
  | nil =>
    simp [insertListener] at hy
    exact Or.inl hy
  | cons z zs ih =>
    simp only [insertListener] at hy
    by_cases h : x.priority < z.priority
    · rw [if_pos h] at hy
      rcases List.mem_cons.mp hy with h1 | h1
      · exact Or.inr (List.mem_cons.mpr (Or.inl h1))
      · rcases ih h1 with h2 | h2
        · exact Or.inl h2
        · exact Or.inr (List.mem_cons.mpr (Or.inr h2))
    · rw [if_neg h] at hy
      rcases List.mem_cons.mp hy with h1 | h1
      · exact Or.inl h1
      · exact Or.inr h1

theorem insertListener_sorted {x : EventListener} {ys : List EventListener}
    (hs : SortedDesc ys) : SortedDesc (insertListener x ys) := by
  induction ys with
  | nil =>
    simp only [insertListener, SortedDesc]
    exact List.pairwise_singleton _ _
  | cons z zs ih =>
    have hs2 : List.Pairwise (fun a b => b.priority ≤ a.priority) (z :: zs) := hs
    rcases List.pairwise_cons.mp hs2 with ⟨hz, hzs⟩
    simp only [insertListener]
    by_cases h : x.priority < z.priority
    · rw [if_pos h]
      refine List.pairwise_cons.mpr ⟨?_, ih hzs⟩
      intro b hb
      rcases mem_insertListener hb with h1 | h1
      · rw [h1]
        exact le_of_lt h
      · exact hz b h1
    · rw [if_neg h]
      refine List.pairwise_cons.mpr ⟨?_, hs2⟩
      intro b hb
      have hzx : z.priority ≤ x.priority := le_of_not_lt h
      rcases List.mem_cons.mp hb with h1 | h1
      · rw [h1]
        exact hzx
      · exact le_trans (hz b h1) hzx

theorem sortListeners_sorted (xs : List EventListener) : SortedDesc (sortListeners xs) := by
  induction xs with
  | nil => exact List.Pairwise.nil
  | cons x rest ih =>
    simp only [sortListeners]
    exact insertListener_sorted ih

theorem filter_insertListener (x : EventListener) (p : Int) (ys : List EventListener) :
    (insertListener x ys).filter (fun l => decide (l.priority = p))
      = if x.priority = p then
          x :: ys.filter (fun l => decide (l.priority = p))
        else ys.filter (fun l => decide (l.priority = p)) := by
  induction ys with
  | nil =>
    by_cases hp : x.priority = p <;> simp [insertListener, List.filter, hp]
  | cons z zs ih =>
    simp only [insertListener]
    by_cases h : x.priority < z.priority
    · rw [if_pos h]
      by_cases hp : x.priority = p
      · have hz : ¬(z.priority = p) := by
          intro hq
          rw [hp, hq] at h
          exact lt_irrefl p h
        simp [List.filter_cons, hz, ih, hp]
      · by_cases hz : z.priority = p <;> simp [List.filter_cons, hz, ih, hp]
    · rw [if_neg h]
      by_cases hp : x.priority = p <;>
        by_cases hz : z.priority = p <;>
          simp [List.filter_cons, hp, hz]

theorem filter_sortListeners (p : Int) (xs : List EventListener) :
    (sortListeners xs).filter (fun l => decide (l.priority = p))
      = xs.filter (fun l => decide (l.priority = p)) := by
  induction xs with
  | nil => rfl
  | cons x rest ih =>
    simp only [sortListeners]
    rw [filter_insertListener, ih]
    by_cases hp : x.priority = p <;> simp [List.filter_cons, hp]

theorem subscribeAll_listeners (rs : List SubReq) (b : EventBus) (n : String)
    (hb : ∀ m, SortedDesc ((dictGet b.listeners m).getD [])) :
    SortedDesc ((dictGet (subscribeAll b rs).listeners n).getD []) ∧
    ∀ p : Int,
      ((dictGet (subscribeAll b rs).listeners n).getD []).filter
          (fun l => decide (l.priority = p))
        = ((dictGet b.listeners n).getD []).filter (fun l => decide (l.priority = p))
          ++ ((rs.filter (fun r => decide (r.event_name = n))).map mkListener).filter
              (fun l => decide (l.priority = p)) := by
  induction rs generalizing b with
  | nil =>
    refine ⟨hb n, fun p => ?_⟩
    simp [subscribeAll]
  | cons r rest ih =>
    have hstep : subscribeAll b (r :: rest) = subscribeAll (b.subscribe r).1 rest := rfl
    have hb2 : ∀ m, SortedDesc ((dictGet (b.subscribe r).1.listeners m).getD []) := by
      intro m
      by_cases hm : m = r.event_name
      · subst hm
        simp only [EventBus.subscribe]
        rw [dictGet_dictSet_self]
        exact sortListeners_sorted _
      · simp only [EventBus.subscribe]
        rw [dictGet_dictSet_ne _ _ hm]
        exact hb m
    rcases ih (b.subscribe r).1 hb2 with ⟨hsorted, hfil⟩
    rw [hstep]
    refine ⟨hsorted, fun p => ?_⟩
    rw [hfil p]
    by_cases hm : n = r.event_name
    · subst hm
      simp only [EventBus.subscribe]
      rw [dictGet_dictSet_self]
      simp only [Option.getD_some]
      rw [filter_sortListeners, List.filter_append]
      by_cases hp : r.priority = p <;>
        simp [List.filter_cons, List.map_cons, mkListener, hp, List.append_assoc]
    · simp only [EventBus.subscribe]
      rw [dictGet_dictSet_ne _ _ hm]
      have hne : ¬(r.event_name = n) := fun hq => hm hq.symm
      simp [List.filter_cons, hne]

theorem lastN_drop_append {α : Type} (l X : List α) (k n : Nat) (h : n + k ≤ l.length) :
    lastN n (l.drop k ++ X) = lastN n (l ++ X) := by
  unfold lastN
  rw [← List.drop_append_of_le_length (by omega : k ≤ l.length)]
  rw [List.drop_drop]
  congr 1
  simp only [List.length_drop, List.length_append]
  omega

theorem lastN_of_le {α : Type} (n : Nat) (xs : List α) (h : xs.length ≤ n) :
    lastN n xs = xs := by
  unfold lastN
  rw [Nat.sub_eq_zero_of_le h, List.drop_zero]

theorem publishState_max (b : EventBus) (r : PubReq) :
    (b.publishState r).max_history = b.max_history := rfl

theorem publishState_history (b : EventBus) (r : PubReq) (hmax : b.max_history = 100)
    (hlen : b.event_history.length ≤ 100) :
    (b.publishState r).event_history.length ≤ 100 ∧
    ∀ X : List Event,
      lastN 100 ((b.publishState r).event_history ++ X)
        = lastN 100 ((b.event_history ++ [mkEvent r]) ++ X) := by
  have hcases : (b.publishState r).event_history
      = if (b.event_history ++ [mkEvent r]).length > 100 then
          (b.event_history ++ [mkEvent r]).drop 1
        else b.event_history ++ [mkEvent r] := by
    simp only [EventBus.publishState, hmax]
  have hl : (b.event_history ++ [mkEvent r]).length = b.event_history.length + 1 := by
    simp
  by_cases hc : (b.event_history ++ [mkEvent r]).length > 100
  · rw [hcases, if_pos hc]
    constructor
    · rw [List.length_drop]
      omega
    · intro X
      exact lastN_drop_append _ X 1 100 (by omega)
  · rw [hcases, if_neg hc]
    exact ⟨by omega, fun X => rfl⟩

theorem publishAll_history (rs : List PubReq) (b : EventBus)
    (hmax : b.max_history = 100) (hlen : b.event_history.length ≤ 100) :
    (publishAll b rs).event_history = lastN 100 (b.event_history ++ rs.map mkEvent) := by
  induction rs generalizing b with
  | nil =>
    simp only [publishAll, List.foldl, List.map_nil, List.append_nil]
    exact (lastN_of_le 100 b.event_history hlen).symm
  | cons r rest ih =>
    have hstep : publishAll b (r :: rest) = publishAll (b.publishState r) rest := rfl
    obtain ⟨hlen2, hX⟩ := publishState_history b r hmax hlen
    rw [hstep, ih (b.publishState r) (by rw [publishState_max, hmax]) hlen2,
        hX (rest.map mkEvent), List.append_assoc]
    simp only [List.singleton_append, List.map_cons]

end Events

namespace Monitor

theorem check_health_fold (now : ℚ) (checks : List HealthCheck) :
    ∀ (res : List (String × CheckEntry)) (ah cf : Bool),
      (checks.foldl (checkStep now) (res, ah, cf)).2.1
          = (ah && checks.all (fun c => (c.check now).healthy)) ∧
      (checks.foldl (checkStep now) (res, ah, cf)).2.2
          = (cf || checks.any (fun c => !(c.check now).healthy && c.critical)) := by
  induction checks with
  | nil => simp
  | cons c rest ih =>
    intro res ah cf
    simp only [List.foldl]
    rcases ih (checkStep now (res, ah, cf) c).1 (checkStep now (res, ah, cf) c).2.1
      (checkStep now (res, ah, cf) c).2.2 with ⟨h1, h2⟩
    constructor
    · rw [h1]
      simp [checkStep, List.all_cons, Bool.and_assoc]
    · rw [h2]
      simp [checkStep, List.any_cons, Bool.or_assoc]

end Monitor

/-! ## Claim theorems -/

/-- C7: the registry's kind accessors are get-or-create and never fail:
the first accessor call for a name stores one metric instance under that
name, and every subsequent call with the same name — whichever kind
accessor is now used — leaves the collector unchanged and returns that
same stored instance (in particular, `counter` called twice returns the
identical underlying instance). -/
theorem registry_get_or_create_same_instance :
    ∀ (mc : Metrics.MetricsCollector) (k1 k2 : Metrics.MetricKind) (n d1 d2 : String),
      dictGet (mc.access k1 n d1).1.metrics n = some (mc.access k1 n d1).2 ∧
      (mc.access k1 n d1).1.access k2 n d2 = ((mc.access k1 n d1).1, (mc.access k1 n d1).2) := by
  intro mc k1 k2 n d1 d2
  refine ⟨Metrics.access_lookup mc k1 n d1, ?_⟩
  exact Metrics.access_found k2 d2 (Metrics.access_lookup mc k1 n d1)

/-- C9 counterexample: the claim predicts that after `start(); run; stop();
start(); run session-2 work` the reported statistics come from the new
session alone (2 calls here); the code reports the profile's accumulated
totals across both sessions (3 calls). -/
theorem profiler_fresh_window_counterexample :
    ¬ ((Profiling.profExample.get_stats).1 = 2) := by
  decide

/-- C9 amended: `start()` after a prior `stop()` re-enables the same
underlying profile object whose accumulated statistics persist; work done
in the new session is added on top of the previous totals, and `get_stats`
reports the combined totals, not a fresh window. -/
theorem profiler_accumulates_across_sessions :
    ∀ (p : Profiling.Profiler) (calls : Nat) (t : ℚ),
      ((p.stop.start).run calls t).get_stats
        = (p.profiler.total_calls + calls, p.profiler.total_time + t) := by
  intro p calls t
  by_cases h : p.profiling <;>
    simp [Profiling.Profiler.stop, Profiling.Profiler.start, Profiling.Profiler.run,
          Profiling.Profiler.get_stats, Profiling.CProfile.disable,
          Profiling.CProfile.enable, Profiling.CProfile.record, h]

/-- C10: `Timer.__exit__` with no recorded start time is a no-op (the
timer is returned unchanged: nothing is observed and the stored last
duration is untouched), and an `__enter__` followed by any positive number
of `__exit__` calls appends exactly one observation — the duration of the
first exit — to the timer's histogram. -/
theorem timer_exit_without_start_noop :
    ∀ (t : Metrics.Timer) (now : ℚ),
      (t.start_time = none → t.exit now = t) ∧
      ∀ (t0 now1 : ℚ) (rest : List ℚ),
        (rest.foldl Metrics.Timer.exit ((t.enter t0).exit now1)).histogram.observations
            = t.histogram.observations ++ [now1 - t0] ∧
        (rest.foldl Metrics.Timer.exit ((t.enter t0).exit now1)).duration
            = some (now1 - t0) := by
  intro t now
  constructor
  · intro h
    exact Metrics.exit_of_no_start now h
  · intro t0 now1 rest
    have h1 : (t.enter t0).exit now1
        = { t with duration := some (now1 - t0),
                   histogram := t.histogram.observe (now1 - t0),
                   start_time := none } := by
      simp [Metrics.Timer.enter, Metrics.Timer.exit]
    rw [h1, Metrics.foldl_exit_of_no_start rest _ rfl]
    simp [Metrics.Histogram.observe]

/-- C10 witness: a fresh timer has no start time, and `__exit__` on it is
a no-op. -/
theorem timer_exit_without_start_noop_witness :
    (Metrics.Timer.init "t" "").start_time = none ∧
    (Metrics.Timer.init "t" "").exit 5 = Metrics.Timer.init "t" "" :=
  ⟨rfl, (timer_exit_without_start_noop (Metrics.Timer.init "t" "") 5).1 rfl⟩

/-- C1 counterexample: in the collector `mcExample` (one metric of each
kind, built through the public operations, with the gauge set to 5),
`reset_all()` leaves the gauge at 5: `Gauge` defines no `reset` method, so
the `hasattr` guard skips it, refuting "every Gauge reads value 0". -/
theorem reset_all_counterexample :
    dictGet (Metrics.mcExample.reset_all).metrics "g"
      = some (.gauge ((Metrics.Gauge.init "g" "").set 5)) ∧
    ¬ (((Metrics.Gauge.init "g" "").set 5).value = 0) := by
  constructor
  · decide
  · decide

/-- C1 amended: `reset_all()` resets every metric that defines a `reset`
method: every Counter afterwards reads 0 and every Histogram has no
observations; Gauges and Timers (whose classes define no `reset`) are
skipped by the `hasattr` guard and left exactly as they were — in
particular a Timer's histogram keeps its observations. -/
theorem reset_all_resets_only_resettable :
    ∀ (mc : Metrics.MetricsCollector) (n : String),
      (∀ c, dictGet mc.reset_all.metrics n = some (.counter c) → c.value = 0) ∧
      (∀ h, dictGet mc.reset_all.metrics n = some (.histogram h) → h.observations = []) ∧
      (∀ g, dictGet mc.reset_all.metrics n = some (.gauge g) →
        dictGet mc.metrics n = some (.gauge g)) ∧
      (∀ t, dictGet mc.reset_all.metrics n = some (.timer t) →
        dictGet mc.metrics n = some (.timer t)) := by
  intro mc n
  have key : dictGet mc.reset_all.metrics n = (dictGet mc.metrics n).map Metrics.Metric.resetStep := by
    simp only [Metrics.MetricsCollector.reset_all]
    exact Metrics.dictGet_map_resetStep mc.metrics n
  refine ⟨?_, ?_, ?_, ?_⟩
  · intro c hx
    rw [key] at hx
    cases hm : dictGet mc.metrics n with
    | none => rw [hm] at hx; simp at hx
    | some m =>
      rw [hm] at hx
      simp only [Option.map_some', Option.some.injEq] at hx
      cases m <;>
        simp [Metrics.Metric.resetStep, Metrics.Metric.hasResetAttr,
              Metrics.Metric.callReset] at hx
      rw [← hx]
      simp [Metrics.Counter.reset]
  · intro h hx
    rw [key] at hx
    cases hm : dictGet mc.metrics n with
    | none => rw [hm] at hx; simp at hx
    | some m =>
      rw [hm] at hx
      simp only [Option.map_some', Option.some.injEq] at hx
      cases m <;>
        simp [Metrics.Metric.resetStep, Metrics.Metric.hasResetAttr,
              Metrics.Metric.callReset] at hx
      rw [← hx]
      simp [Metrics.Histogram.reset]
  · intro g hx
    rw [key] at hx
    cases hm : dictGet mc.metrics n with
    | none => rw [hm] at hx; simp at hx
    | some m =>
      rw [hm] at hx
      simp only [Option.map_some', Option.some.injEq] at hx
      cases m <;>
        simp [Metrics.Metric.resetStep, Metrics.Metric.hasResetAttr,
              Metrics.Metric.callReset] at hx
      rw [← hx]
  · intro t hx
    rw [key] at hx
    cases hm : dictGet mc.metrics n with
    | none => rw [hm] at hx; simp at hx
    | some m =>
      rw [hm] at hx
      simp only [Option.map_some', Option.some.injEq] at hx
      cases m <;>
        simp [Metrics.Metric.resetStep, Metrics.Metric.hasResetAttr,
              Metrics.Metric.callReset] at hx
      rw [← hx]

/-- C1 witness: in `mcExample.reset_all` the name `"g"` holds the gauge
set to 5, and the amended theorem yields that this very gauge was already
stored before the reset. -/
theorem reset_all_resets_only_resettable_witness :
    dictGet (Metrics.mcExample.reset_all).metrics "g"
      = some (.gauge ((Metrics.Gauge.init "g" "").set 5)) ∧
    dictGet Metrics.mcExample.metrics "g"
      = some (.gauge ((Metrics.Gauge.init "g" "").set 5)) :=
  ⟨by decide,
   (reset_all_resets_only_resettable Metrics.mcExample "g").2.2.1
     ((Metrics.Gauge.init "g" "").set 5) (by decide)⟩

/-- C8: `stats` on an empty histogram returns the all-zero record; its
`count` is always the number of observations; on a nonempty histogram its
`sum` is the sum of the observations, its `min`/`max` are observations and
lower/upper bounds of all observations, and its `avg` is sum divided by
count; and on the spec's concrete run 0.1, 0.3, 0.2 it returns count 3,
sum 3/5, min 1/10, max 3/10, avg 1/5 exactly. -/
theorem histogram_stats_spec :
    ∀ (h : Metrics.Histogram),
      (h.observations = [] → h.stats = ⟨0, 0, 0, 0, 0⟩) ∧
      h.stats.count = h.observations.length ∧
      (h.observations ≠ [] →
        h.stats.sum = h.observations.sum ∧
        h.stats.min ∈ h.observations ∧ (∀ v ∈ h.observations, h.stats.min ≤ v) ∧
        h.stats.max ∈ h.observations ∧ (∀ v ∈ h.observations, v ≤ h.stats.max) ∧
        h.stats.avg = h.observations.sum / (h.observations.length : ℚ)) ∧
      Metrics.histExample.stats = ⟨3, 3/5, 1/10, 3/10, 1/5⟩ := by
  intro h
  have concrete : Metrics.histExample.stats = ⟨3, 3/5, 1/10, 3/10, 1/5⟩ := by
    show Metrics.Histogram.stats ⟨"d", "", [1/10, 3/10, 2/10]⟩ = ⟨3, 3/5, 1/10, 3/10, 1/5⟩
    simp only [Metrics.Histogram.stats, Metrics.listSum, Metrics.listMin, Metrics.listMax,
               List.foldl, List.length]
    norm_num
  cases hobs : h.observations with
  | nil =>
    have hz : h.stats = ⟨0, 0, 0, 0, 0⟩ := by
      simp [Metrics.Histogram.stats, hobs]
    refine ⟨fun _ => hz, ?_, fun hne => absurd rfl hne, concrete⟩
    rw [hz]
    rfl
  | cons x xs =>
    have hs : h.stats = ⟨(x :: xs).length, Metrics.listSum (x :: xs), Metrics.listMin x xs,
        Metrics.listMax x xs, Metrics.listSum (x :: xs) / ((x :: xs).length : ℚ)⟩ := by
      simp [Metrics.Histogram.stats, hobs]
    refine ⟨fun hemp => absurd hemp (by simp), ?_, fun _ => ?_, concrete⟩
    · rw [hs]
    · have hsum : Metrics.listSum (x :: xs) = (x :: xs).sum := Metrics.listSum_eq (x :: xs)
      rw [hs]
      refine ⟨?_, ?_, ?_, ?_, ?_, ?_⟩
      · exact hsum
      · exact Metrics.listMin_mem x xs
      · intro v hv
        rcases List.mem_cons.mp hv with h1 | h1
        · subst h1
          exact (Metrics.listMin_le _ xs).1
        · exact (Metrics.listMin_le x xs).2 v h1
      · exact Metrics.listMax_mem x xs
      · intro v hv
        rcases List.mem_cons.mp hv with h1 | h1
        · subst h1
          exact (Metrics.le_listMax _ xs).1
        · exact (Metrics.le_listMax x xs).2 v h1
      · rw [hsum]

/-- C2: `check_health()` runs every registered check; a check whose
function raises is converted to a failed `HealthStatus` with the exception
text under the `error` key of its details, instead of propagating; the
aggregate `healthy` flag is the AND of all checks' healthy flags, and
`critical_failure` is true iff some check that is both unhealthy and
registered as critical exists — a failing non-critical check lowers
`healthy` but never sets `critical_failure`. -/
theorem check_health_aggregation :
    ∀ (m : Monitor.SystemMonitor) (now : ℚ),
      (m.check_health now).healthy
          = m.health_checks.all (fun c => (c.check now).healthy) ∧
      (m.check_health now).critical_failure
          = m.health_checks.any (fun c => !(c.check now).healthy && c.critical) ∧
      ∀ (hc : Monitor.HealthCheck) (e : String),
        hc.check_func () = .error e →
          hc.check now = ⟨false, "Check failed: " ++ e, [("error", e)], now⟩ := by
  intro m now
  obtain ⟨h1, h2⟩ := Monitor.check_health_fold now m.health_checks [] true false
  refine ⟨?_, ?_, ?_⟩
  · have hh : (m.check_health now).healthy
        = (m.health_checks.foldl (Monitor.checkStep now) ([], true, false)).2.1 := rfl
    rw [hh, h1]
    simp
  · have hh : (m.check_health now).critical_failure
        = (m.health_checks.foldl (Monitor.checkStep now) ([], true, false)).2.2 := rfl
    rw [hh, h2]
    simp
  · intro hc e he
    unfold Monitor.HealthCheck.check
    rw [he]

/-- C2 witness: the raising check `hcFail` is converted to a failed status
carrying the exception text "boom" under the `error` key. -/
theorem check_health_aggregation_witness :
    Monitor.hcFail.check_func () = .error "boom" ∧
    Monitor.hcFail.check 0 = ⟨false, "Check failed: " ++ "boom", [("error", "boom")], 0⟩ :=
  ⟨rfl, (check_health_aggregation ⟨[]⟩ 0).2.2 Monitor.hcFail "boom" rfl⟩

/-- C3: from a fresh bus, after any sequence of publish calls the event
history is exactly the last 100 published events (so it never exceeds 100
and evicts oldest first); in particular after 105 publishes,
`get_history(200)` returns exactly the last 100 published events — the
earliest 5 are gone. -/
theorem history_bounded_last_100 :
    ∀ (rs : List Events.PubReq),
      (Events.publishAll Events.EventBus.init rs).event_history
          = Events.lastN 100 (rs.map Events.mkEvent) ∧
      (rs.length = 105 →
        (Events.publishAll Events.EventBus.init rs).get_history 200
            = (rs.map Events.mkEvent).drop 5) := by
  intro rs
  have h1 := Events.publishAll_history rs Events.EventBus.init rfl
    (by simp [Events.EventBus.init])
  rw [show Events.EventBus.init.event_history = [] from rfl, List.nil_append] at h1
  refine ⟨h1, fun h105 => ?_⟩
  have hlenmap : (rs.map Events.mkEvent).length = 105 := by
    rw [List.length_map, h105]
  have hdrop : Events.lastN 100 (rs.map Events.mkEvent) = (rs.map Events.mkEvent).drop 5 := by
    unfold Events.lastN
    rw [hlenmap]
  have hlen100 : (Events.publishAll Events.EventBus.init rs).event_history.length = 100 := by
    rw [h1, hdrop, List.length_drop, hlenmap]
  unfold Events.EventBus.get_history
  rw [if_neg (by decide : ¬(200 = 0)), hlen100, h1, hdrop]
  norm_num

/-- C3 witness: publishing the concrete 105-request sequence `reqsEx`
leaves `get_history(200)` with exactly the last 100 events. -/
theorem history_bounded_last_100_witness :
    Events.reqsEx.length = 105 ∧
    (Events.publishAll Events.EventBus.init Events.reqsEx).get_history 200
        = (Events.reqsEx.map Events.mkEvent).drop 5 :=
  ⟨by decide, (history_bounded_last_100 Events.reqsEx).2 (by decide)⟩

/-- C4: after any sequence of subscribe calls on a fresh bus, each event
name's listener list is sorted by priority descending, ties preserving
relative insertion order (for every priority `p`, the sublist of
priority-`p` listeners equals the insertion-order sublist), and a publish
for that name invokes exactly the listeners of that list that pass their
filter, in list order; in particular subscribing `A` (priority 1) then `B`
(priority 5) to `"x"` and publishing `"x"` invokes `B` (id 2) before `A`
(id 1). -/
theorem listeners_sorted_stable_dispatch_order :
    (∀ (rs : List Events.SubReq) (n : String),
      Events.SortedDesc
        ((dictGet (Events.subscribeAll Events.EventBus.init rs).listeners n).getD []) ∧
      (∀ p : Int,
        ((dictGet (Events.subscribeAll Events.EventBus.init rs).listeners n).getD []).filter
            (fun l => decide (l.priority = p))
          = ((rs.filter (fun r => decide (r.event_name = n))).map Events.mkListener).filter
              (fun l => decide (l.priority = p))) ∧
      (∀ (d md : Option Events.AnyDict) (now : ℚ),
        (Events.subscribeAll Events.EventBus.init rs).publishTrace ⟨n, d, md, now⟩
          = (((dictGet (Events.subscribeAll Events.EventBus.init rs).listeners n).getD
                []).filter
              (fun l => l.should_handle (Events.mkEvent ⟨n, d, md, now⟩))).map
              (fun l => l.callback.cid))) ∧
    Events.busAB.publishTrace Events.pubX = [2, 1] := by
  constructor
  · intro rs n
    have hinit : ∀ m, Events.SortedDesc
        ((dictGet Events.EventBus.init.listeners m).getD []) := by
      intro m
      have hm : (dictGet Events.EventBus.init.listeners m).getD []
          = ([] : List Events.EventListener) := rfl
      rw [hm]
      exact List.Pairwise.nil
    obtain ⟨hs, hf⟩ := Events.subscribeAll_listeners rs Events.EventBus.init n hinit
    refine ⟨hs, fun p => ?_, fun d md now => Events.publishTrace_eq _ _⟩
    rw [hf p]
    have hz : ((dictGet Events.EventBus.init.listeners n).getD []).filter
        (fun l => decide (l.priority = p)) = [] := rfl
    rw [hz, List.nil_append]
  · decide

/-- C5: a listener callback runs inside try/except, so `handle` always
returns normally; consequently `publish` always succeeds, returning the
constructed event, and its invocation trace covers every snapshotted
listener passing its filter — independent of whether any callback raises.
On the concrete bus `busRaise`, the raising high-priority listener (id 7)
does not prevent the lower-priority listener (id 8) from running. -/
theorem publish_isolates_callback_failures :
    (∀ (l : Events.EventListener) (e : Events.Event), l.handle e = .ok ()) ∧
    (∀ (b : Events.EventBus) (r : Events.PubReq),
      b.publish r = .ok (b.publishState r, Events.mkEvent r,
        (((dictGet b.listeners r.name).getD []).filter
          (fun l => l.should_handle (Events.mkEvent r))).map (fun l => l.callback.cid))) ∧
    Events.busRaise.publish Events.pubX
      = .ok (Events.busRaise.publishState Events.pubX, Events.mkEvent Events.pubX, [7, 8]) := by
  refine ⟨Events.handle_ok, Events.publish_eq, ?_⟩
  rw [Events.publish_eq]
  rfl

/-- C6 counterexample: on a bus holding one event, `get_history(0)` — a
non-negative limit — returns the whole history (the Python slice
`[-0:]` is the full list), not at most 0 events. -/
theorem get_history_zero_counterexample :
    ¬ ((Events.busOne.get_history 0).length ≤ 0) := by
  decide

/-- C6 amended: for every positive limit, `get_history(limit)` returns at
most `limit` events, namely the most recent `min limit length` of them as
a suffix of the chronological history; `get_history(0)`, however, returns
the entire history rather than no events. -/
theorem get_history_returns_recent_suffix :
    ∀ (b : Events.EventBus) (limit : Nat),
      (0 < limit →
        (b.get_history limit).length ≤ limit ∧
        (b.get_history limit).length = min limit b.event_history.length ∧
        b.get_history limit <:+ b.event_history) ∧
      b.get_history 0 = b.event_history := by
  intro b limit
  constructor
  · intro hpos
    have hne : ¬(limit = 0) := by omega
    unfold Events.EventBus.get_history
    rw [if_neg hne]
    refine ⟨?_, ?_, List.drop_suffix _ _⟩
    · rw [List.length_drop]
      omega
    · rw [List.length_drop]
      omega
  · unfold Events.EventBus.get_history
    rw [if_pos rfl]

/-- C6 witness: on the one-event bus, `get_history(1)` returns at most one
event. -/
theorem get_history_returns_recent_suffix_witness :
    0 < 1 ∧ (Events.busOne.get_history 1).length ≤ 1 :=
  ⟨by decide, ((get_history_returns_recent_suffix Events.busOne 1).1 (by decide)).1⟩

/-- C8 witness: the empty-histogram branch at a fresh histogram, and the
nonempty branch at the concrete 0.1/0.3/0.2 histogram. -/
theorem histogram_stats_spec_witness :
    (Metrics.Histogram.init "x" "").stats = ⟨0, 0, 0, 0, 0⟩ ∧
    Metrics.histExample.observations ≠ [] ∧
    Metrics.histExample.stats.min ∈ Metrics.histExample.observations :=
  ⟨(histogram_stats_spec (Metrics.Histogram.init "x" "")).1 rfl,
   by decide,
   ((histogram_stats_spec Metrics.histExample).2.2.1 (by decide)).2.1⟩

end Lexia
